import Mathlib

/-!
Verification of the DNS forwarding server core (Go sources in `app/`):
a shallow embedding of the header codec (`toBytes`, `parseDNSHeader`),
the name/question codec (`encodeDomainName`, `parseDomainName`,
`parseQuestions`) and the forwarding path (`forwardDNSQuery`,
`handleQuery`), together with proofs about them.

Conventions of the embedding:
* Go byte slices are `List Nat` with entries below 256.
* Go `uint16` fields are `Nat`; wrap-around is made explicit with `% 65536`.
* A Go function that can panic (out-of-range slice index) or fail on the
  network returns `Option`; `none` covers both abnormal outcomes.
* The recursive `parseDomainName` is embedded with explicit fuel, one unit
  per loop iteration or pointer dereference; `none` on fuel exhaustion.
* The upstream resolver is a parameter `upstream : List Nat → Option (List Nat)`
  mapping the written datagram to the datagram read back (`none` = network error).
-/

set_option maxRecDepth 16384

/-- Truncation to 16 bits, the implicit wrap of Go `uint16` arithmetic. -/
def u16 (n : Nat) : Nat := n % 65536

/-- `binary.BigEndian.PutUint16`: the two big-endian bytes of a 16-bit value. -/
def put16 (v : Nat) : List Nat := [u16 v / 256, v % 256]

/-- `binary.BigEndian.Uint16` over bytes `i, i+1` of a buffer. -/
def get16 (buf : List Nat) (i : Nat) : Nat := buf.getD i 0 * 256 + buf.getD (i + 1) 0

/-- The `DNSHeader` struct of `dns_header.go`, fields in source order. -/
structure DNSHeader where
  ID : Nat
  QR : Nat
  OPCODE : Nat
  AA : Nat
  TC : Nat
  RD : Nat
  RA : Nat
  Z : Nat
  RCODE : Nat
  QDCOUNT : Nat
  ANCOUNT : Nat
  NSCOUNT : Nat
  ARCOUNT : Nat
deriving DecidableEq, Repr

/-- The 16-bit flags word that `toBytes` writes at bytes 2-3:
`(QR<<15)|(OPCODE<<11)|(AA<<10)|(TC<<9)|(RD<<8)|(RA<<7)|(Z<<4)|RCODE`
computed in `uint16` arithmetic (each shift wraps). -/
def flagsWord (h : DNSHeader) : Nat :=
  u16 (u16 h.QR <<< 15) ||| u16 (u16 h.OPCODE <<< 11) ||| u16 (u16 h.AA <<< 10) |||
  u16 (u16 h.TC <<< 9) ||| u16 (u16 h.RD <<< 8) ||| u16 (u16 h.RA <<< 7) |||
  u16 (u16 h.Z <<< 4) ||| u16 h.RCODE

/-- `(*DNSHeader).toBytes` of `utils.go`: the 12-byte serialized header. -/
def toBytes (h : DNSHeader) : List Nat :=
  put16 h.ID ++ put16 (flagsWord h) ++ put16 h.QDCOUNT ++ put16 h.ANCOUNT ++
  put16 h.NSCOUNT ++ put16 h.ARCOUNT

/-- `parseDNSHeader` of `utils.go`.  The Go code slices `buf[0:2] … buf[10:12]`
with no length check, so any buffer shorter than 12 bytes panics: that abnormal
exit is `none` here.  On 12 or more bytes it builds the response header:
`QR=1`, `AA=TC=RA=Z=0`, `ANCOUNT=0`, `RCODE=4` iff the opcode is nonzero. -/
def parseDNSHeader (buf : List Nat) : Option DNSHeader :=
  if buf.length < 12 then none else
  some { ID := get16 buf 0, QR := 1, OPCODE := get16 buf 2 >>> 11 &&& 15, AA := 0, TC := 0,
         RD := get16 buf 2 >>> 8 &&& 1, RA := 0, Z := 0,
         RCODE := if get16 buf 2 >>> 11 &&& 15 ≠ 0 then 4 else 0,
         QDCOUNT := get16 buf 4, ANCOUNT := 0,
         NSCOUNT := get16 buf 8, ARCOUNT := get16 buf 10 }

/-! ### Arithmetic facts about the bit packing -/

/-- Disjoint bit ranges: `or`-ing a left-shifted value with a value that fits
below the shift is addition. -/
theorem lor_shiftLeft_add (a b n : Nat) (hb : b < 2 ^ n) :
    a <<< n ||| b = a <<< n + b := by
  apply Nat.eq_of_testBit_eq
  intro i
  rcases Nat.lt_or_ge i n with h | h
  · have h1 : Nat.testBit (a <<< n) i = false := by
      rw [Nat.testBit_shiftLeft]
      simp [Nat.not_le_of_gt h]
    have hsplit : (2 : Nat) ^ n = 2 ^ i * (2 * 2 ^ (n - i - 1)) := by
      rw [← Nat.pow_succ']
      rw [← Nat.pow_add]
      congr 1
      omega
    have hd : (a * 2 ^ n + b) / 2 ^ i = 2 * (a * 2 ^ (n - i - 1)) + b / 2 ^ i := by
      rw [hsplit, show a * (2 ^ i * (2 * 2 ^ (n - i - 1))) =
            2 ^ i * (2 * (a * 2 ^ (n - i - 1))) by ring]
      rw [Nat.mul_add_div (Nat.two_pow_pos i)]
    rw [Nat.testBit_or, h1, Bool.false_or, Nat.shiftLeft_eq,
        Nat.testBit_to_div_mod, Nat.testBit_to_div_mod, hd]
    generalize a * 2 ^ (n - i - 1) = t
    generalize b / 2 ^ i = y
    have hmod : (2 * t + y) % 2 = y % 2 := by omega
    rw [hmod]
  · have hbf : Nat.testBit b i = false :=
      Nat.testBit_lt_two_pow (Nat.lt_of_lt_of_le hb (Nat.pow_le_pow_right (by omega) h))
    have hd : (a * 2 ^ n + b) / 2 ^ i = a / 2 ^ (i - n) := by
      rw [show (2 : Nat) ^ i = 2 ^ n * 2 ^ (i - n) by
            rw [← Nat.pow_add]; congr 1; omega]
      rw [← Nat.div_div_eq_div_mul,
          show a * 2 ^ n + b = 2 ^ n * a + b by ring,
          Nat.mul_add_div (Nat.two_pow_pos n), Nat.div_eq_of_lt hb, Nat.add_zero]
    have hdt : decide (i ≥ n) = true := decide_eq_true h
    rw [Nat.testBit_or, hbf, Bool.or_false, Nat.testBit_shiftLeft, hdt, Bool.true_and,
        Nat.shiftLeft_eq, Nat.testBit_to_div_mod, Nat.testBit_to_div_mod, hd]

/-- Multiplication form of `lor_shiftLeft_add`. -/
theorem lor_mul_pow_add (a b n : Nat) (hb : b < 2 ^ n) :
    a * 2 ^ n ||| b = a * 2 ^ n + b := by
  have := lor_shiftLeft_add a b n hb
  rwa [Nat.shiftLeft_eq] at this

/-- For in-range fields the Go `or`-of-shifts flags word is the MSB-first
packed sum `QR·2^15 + OPCODE·2^11 + AA·2^10 + TC·2^9 + RD·2^8 + RA·2^7 + Z·2^4 + RCODE`. -/
theorem pack_flags (qr op aa tc rd ra z rc : Nat)
    (hqr : qr < 2) (hop : op < 16) (haa : aa < 2) (htc : tc < 2)
    (hrd : rd < 2) (hra : ra < 2) (hz : z < 8) (hrc : rc < 16) :
    u16 (u16 qr <<< 15) ||| u16 (u16 op <<< 11) ||| u16 (u16 aa <<< 10) |||
    u16 (u16 tc <<< 9) ||| u16 (u16 rd <<< 8) ||| u16 (u16 ra <<< 7) |||
    u16 (u16 z <<< 4) ||| u16 rc =
    qr * 32768 + op * 2048 + aa * 1024 + tc * 512 + rd * 256 + ra * 128 + z * 16 + rc := by
  have eqr : u16 qr = qr := Nat.mod_eq_of_lt (by omega)
  have eop : u16 op = op := Nat.mod_eq_of_lt (by omega)
  have eaa : u16 aa = aa := Nat.mod_eq_of_lt (by omega)
  have etc' : u16 tc = tc := Nat.mod_eq_of_lt (by omega)
  have erd : u16 rd = rd := Nat.mod_eq_of_lt (by omega)
  have era : u16 ra = ra := Nat.mod_eq_of_lt (by omega)
  have ez : u16 z = z := Nat.mod_eq_of_lt (by omega)
  have erc : u16 rc = rc := Nat.mod_eq_of_lt (by omega)
  rw [eqr, eop, eaa, etc', erd, era, ez, erc]
  simp only [Nat.shiftLeft_eq]
  have s15 : u16 (qr * 2 ^ 15) = qr * 2 ^ 15 := Nat.mod_eq_of_lt (by norm_num; omega)
  have s11 : u16 (op * 2 ^ 11) = op * 2 ^ 11 := Nat.mod_eq_of_lt (by norm_num; omega)
  have s10 : u16 (aa * 2 ^ 10) = aa * 2 ^ 10 := Nat.mod_eq_of_lt (by norm_num; omega)
  have s9 : u16 (tc * 2 ^ 9) = tc * 2 ^ 9 := Nat.mod_eq_of_lt (by norm_num; omega)
  have s8 : u16 (rd * 2 ^ 8) = rd * 2 ^ 8 := Nat.mod_eq_of_lt (by norm_num; omega)
  have s7 : u16 (ra * 2 ^ 7) = ra * 2 ^ 7 := Nat.mod_eq_of_lt (by norm_num; omega)
  have s4 : u16 (z * 2 ^ 4) = z * 2 ^ 4 := Nat.mod_eq_of_lt (by norm_num; omega)
  rw [s15, s11, s10, s9, s8, s7, s4]
  rw [Nat.lor_assoc, Nat.lor_assoc, Nat.lor_assoc, Nat.lor_assoc, Nat.lor_assoc,
      Nat.lor_assoc]
  rw [lor_mul_pow_add z rc 4 (by norm_num; omega)]
  rw [lor_mul_pow_add ra (z * 2 ^ 4 + rc) 7 (by norm_num; omega)]
  rw [lor_mul_pow_add rd (ra * 2 ^ 7 + (z * 2 ^ 4 + rc)) 8 (by norm_num; omega)]
  rw [lor_mul_pow_add tc (rd * 2 ^ 8 + (ra * 2 ^ 7 + (z * 2 ^ 4 + rc))) 9
        (by norm_num; omega)]
  rw [lor_mul_pow_add aa (tc * 2 ^ 9 + (rd * 2 ^ 8 + (ra * 2 ^ 7 + (z * 2 ^ 4 + rc)))) 10
        (by norm_num; omega)]
  rw [lor_mul_pow_add op
        (aa * 2 ^ 10 + (tc * 2 ^ 9 + (rd * 2 ^ 8 + (ra * 2 ^ 7 + (z * 2 ^ 4 + rc))))) 11
        (by norm_num; omega)]
  rw [lor_mul_pow_add qr
        (op * 2 ^ 11 +
          (aa * 2 ^ 10 + (tc * 2 ^ 9 + (rd * 2 ^ 8 + (ra * 2 ^ 7 + (z * 2 ^ 4 + rc)))))) 15
        (by norm_num; omega)]
  norm_num
  omega

/-- Extracting the opcode bits back out of the packed flags word. -/
theorem extract_opcode (qr op aa tc rd ra z rc : Nat)
    (hqr : qr < 2) (hop : op < 16) (haa : aa < 2) (htc : tc < 2)
    (hrd : rd < 2) (hra : ra < 2) (hz : z < 8) (hrc : rc < 16) :
    (qr * 32768 + op * 2048 + aa * 1024 + tc * 512 + rd * 256 + ra * 128 + z * 16 + rc)
      >>> 11 &&& 15 = op := by
  rw [Nat.shiftRight_eq_div_pow,
      show (15 : Nat) = 2 ^ 4 - 1 by norm_num, Nat.and_pow_two_sub_one_eq_mod]
  norm_num
  omega

/-- Extracting the RD bit back out of the packed flags word. -/
theorem extract_rd (qr op aa tc rd ra z rc : Nat)
    (hqr : qr < 2) (hop : op < 16) (haa : aa < 2) (htc : tc < 2)
    (hrd : rd < 2) (hra : ra < 2) (hz : z < 8) (hrc : rc < 16) :
    (qr * 32768 + op * 2048 + aa * 1024 + tc * 512 + rd * 256 + ra * 128 + z * 16 + rc)
      >>> 8 &&& 1 = rd := by
  rw [Nat.shiftRight_eq_div_pow, Nat.and_one_is_mod]
  norm_num
  omega

/-- `toBytes` written out as the 12 literal bytes. -/
theorem toBytes_eq_list (h : DNSHeader) :
    toBytes h = [u16 h.ID / 256, h.ID % 256, u16 (flagsWord h) / 256, flagsWord h % 256,
                 u16 h.QDCOUNT / 256, h.QDCOUNT % 256, u16 h.ANCOUNT / 256, h.ANCOUNT % 256,
                 u16 h.NSCOUNT / 256, h.NSCOUNT % 256, u16 h.ARCOUNT / 256, h.ARCOUNT % 256] := by
  rfl

/-- `get16` on the serialized header, byte pair 0-1 (the ID). -/
theorem get16_toBytes_0 (h : DNSHeader) :
    get16 (toBytes h) 0 = u16 h.ID / 256 * 256 + h.ID % 256 := rfl

/-- `get16` on the serialized header, byte pair 2-3 (the flags word). -/
theorem get16_toBytes_2 (h : DNSHeader) :
    get16 (toBytes h) 2 = u16 (flagsWord h) / 256 * 256 + flagsWord h % 256 := rfl

/-- `get16` on the serialized header, byte pair 4-5 (QDCOUNT). -/
theorem get16_toBytes_4 (h : DNSHeader) :
    get16 (toBytes h) 4 = u16 h.QDCOUNT / 256 * 256 + h.QDCOUNT % 256 := rfl

/-- `get16` on the serialized header, byte pair 8-9 (NSCOUNT). -/
theorem get16_toBytes_8 (h : DNSHeader) :
    get16 (toBytes h) 8 = u16 h.NSCOUNT / 256 * 256 + h.NSCOUNT % 256 := rfl

/-- `get16` on the serialized header, byte pair 10-11 (ARCOUNT). -/
theorem get16_toBytes_10 (h : DNSHeader) :
    get16 (toBytes h) 10 = u16 h.ARCOUNT / 256 * 256 + h.ARCOUNT % 256 := rfl

/-- The flags word of an in-range header, as a packed sum. -/
theorem flagsWord_eq_sum (h : DNSHeader)
    (hQR : h.QR < 2) (hOP : h.OPCODE < 16) (hAA : h.AA < 2) (hTC : h.TC < 2)
    (hRD : h.RD < 2) (hRA : h.RA < 2) (hZ : h.Z < 8) (hRC : h.RCODE < 16) :
    flagsWord h = h.QR * 32768 + h.OPCODE * 2048 + h.AA * 1024 + h.TC * 512 +
      h.RD * 256 + h.RA * 128 + h.Z * 16 + h.RCODE :=
  pack_flags h.QR h.OPCODE h.AA h.TC h.RD h.RA h.Z h.RCODE hQR hOP hAA hTC hRD hRA hZ hRC

/-- Claim C7: for every header value (fields within their declared bit widths),
`toBytes` returns exactly 12 bytes, all fields big-endian: ID in bytes 0-1,
the flags word in bytes 2-3 packed MSB-first as
QR(1)·OPCODE(4)·AA(1)·TC(1)·RD(1)·RA(1)·Z(3)·RCODE(4), then QDCOUNT, ANCOUNT,
NSCOUNT, ARCOUNT as 16-bit big-endian words in bytes 4-11. -/
theorem serialize_layout (h : DNSHeader)
    (hID : h.ID < 65536) (hQR : h.QR < 2) (hOP : h.OPCODE < 16) (hAA : h.AA < 2)
    (hTC : h.TC < 2) (hRD : h.RD < 2) (hRA : h.RA < 2) (hZ : h.Z < 8) (hRC : h.RCODE < 16)
    (hQD : h.QDCOUNT < 65536) (hAN : h.ANCOUNT < 65536) (hNS : h.NSCOUNT < 65536)
    (hAR : h.ARCOUNT < 65536) :
    (toBytes h).length = 12 ∧
    toBytes h =
      [h.ID / 256, h.ID % 256,
       (h.QR * 32768 + h.OPCODE * 2048 + h.AA * 1024 + h.TC * 512 + h.RD * 256 +
        h.RA * 128 + h.Z * 16 + h.RCODE) / 256,
       (h.QR * 32768 + h.OPCODE * 2048 + h.AA * 1024 + h.TC * 512 + h.RD * 256 +
        h.RA * 128 + h.Z * 16 + h.RCODE) % 256,
       h.QDCOUNT / 256, h.QDCOUNT % 256, h.ANCOUNT / 256, h.ANCOUNT % 256,
       h.NSCOUNT / 256, h.NSCOUNT % 256, h.ARCOUNT / 256, h.ARCOUNT % 256] := by
  have hfl := flagsWord_eq_sum h hQR hOP hAA hTC hRD hRA hZ hRC
  refine ⟨rfl, ?_⟩
  rw [toBytes_eq_list, hfl]
  have hsum : h.QR * 32768 + h.OPCODE * 2048 + h.AA * 1024 + h.TC * 512 + h.RD * 256 +
      h.RA * 128 + h.Z * 16 + h.RCODE < 65536 := by omega
  unfold u16
  rw [Nat.mod_eq_of_lt hID, Nat.mod_eq_of_lt hQD, Nat.mod_eq_of_lt hAN,
      Nat.mod_eq_of_lt hNS, Nat.mod_eq_of_lt hAR, Nat.mod_eq_of_lt hsum]

/-- Claim C7 witness: a concrete in-range header. -/
theorem serialize_layout_witness :
    let h : DNSHeader := ⟨1234, 1, 3, 0, 0, 1, 0, 0, 4, 1, 2, 3, 4⟩
    h.ID < 65536 ∧ h.QR < 2 ∧ h.OPCODE < 16 ∧ h.AA < 2 ∧ h.TC < 2 ∧ h.RD < 2 ∧
    h.RA < 2 ∧ h.Z < 8 ∧ h.RCODE < 16 ∧ h.QDCOUNT < 65536 ∧ h.ANCOUNT < 65536 ∧
    h.NSCOUNT < 65536 ∧ h.ARCOUNT < 65536 ∧
    ((toBytes h).length = 12 ∧
     toBytes h =
      [h.ID / 256, h.ID % 256,
       (h.QR * 32768 + h.OPCODE * 2048 + h.AA * 1024 + h.TC * 512 + h.RD * 256 +
        h.RA * 128 + h.Z * 16 + h.RCODE) / 256,
       (h.QR * 32768 + h.OPCODE * 2048 + h.AA * 1024 + h.TC * 512 + h.RD * 256 +
        h.RA * 128 + h.Z * 16 + h.RCODE) % 256,
       h.QDCOUNT / 256, h.QDCOUNT % 256, h.ANCOUNT / 256, h.ANCOUNT % 256,
       h.NSCOUNT / 256, h.NSCOUNT % 256, h.ARCOUNT / 256, h.ARCOUNT % 256]) :=
  ⟨by decide, by decide, by decide, by decide, by decide, by decide, by decide,
   by decide, by decide, by decide, by decide, by decide, by decide,
   serialize_layout _ (by decide) (by decide) (by decide) (by decide) (by decide)
     (by decide) (by decide) (by decide) (by decide) (by decide) (by decide)
     (by decide) (by decide)⟩

/-- Claim C8: for every 12-byte input, the header `parseDNSHeader` produces has
QR = 1, AA = TC = RA = Z = 0 regardless of the input bits, and RCODE = 4 exactly
when the input's OPCODE field (bits 14-11 of the flags word) is nonzero. -/
theorem deserialize_forced_bits (buf : List Nat) (hlen : buf.length = 12) :
    (parseDNSHeader buf).isSome = true ∧
    ∀ h, parseDNSHeader buf = some h →
      h.QR = 1 ∧ h.AA = 0 ∧ h.TC = 0 ∧ h.RA = 0 ∧ h.Z = 0 ∧
      h.OPCODE = get16 buf 2 >>> 11 &&& 15 ∧
      h.RCODE = if get16 buf 2 >>> 11 &&& 15 ≠ 0 then 4 else 0 := by
  unfold parseDNSHeader
  rw [if_neg (by omega)]
  refine ⟨rfl, ?_⟩
  intro h hp
  injection hp with hp
  subst hp
  exact ⟨rfl, rfl, rfl, rfl, rfl, rfl, rfl⟩

/-- Claim C8 witness: a concrete 12-byte buffer with a nonzero opcode. -/
theorem deserialize_forced_bits_witness :
    ([0, 7, 120, 255, 0, 1, 0, 9, 0, 2, 0, 3] : List Nat).length = 12 ∧
    ((parseDNSHeader [0, 7, 120, 255, 0, 1, 0, 9, 0, 2, 0, 3]).isSome = true ∧
     ∀ h, parseDNSHeader [0, 7, 120, 255, 0, 1, 0, 9, 0, 2, 0, 3] = some h →
      h.QR = 1 ∧ h.AA = 0 ∧ h.TC = 0 ∧ h.RA = 0 ∧ h.Z = 0 ∧
      h.OPCODE = get16 [0, 7, 120, 255, 0, 1, 0, 9, 0, 2, 0, 3] 2 >>> 11 &&& 15 ∧
      h.RCODE = if get16 [0, 7, 120, 255, 0, 1, 0, 9, 0, 2, 0, 3] 2 >>> 11 &&& 15 ≠ 0
                then 4 else 0) :=
  ⟨by decide, deserialize_forced_bits _ (by decide)⟩

/-- Claim C6: on every buffer shorter than 12 bytes the header decoder aborts
without producing a header (in the Go source the unchecked slice expressions
`buf[0:2] … buf[10:12]` panic, there is no `TruncatedInput` error value). -/
theorem deserialize_short (buf : List Nat) (hlen : buf.length < 12) :
    parseDNSHeader buf = none := by
  unfold parseDNSHeader
  rw [if_pos hlen]

/-- Claim C6 witness: the empty buffer. -/
theorem deserialize_short_witness :
    ([] : List Nat).length < 12 ∧ parseDNSHeader [] = none :=
  ⟨by decide, deserialize_short [] (by decide)⟩

/-- Concrete header for the C3 counterexample: in range, OPCODE = 0, ANCOUNT = 5. -/
def c3hdr : DNSHeader := ⟨1234, 0, 0, 0, 0, 1, 0, 0, 0, 3, 5, 6, 7⟩

/-- Claim C3 counterexample: `parseDNSHeader (toBytes h)` does not preserve
ANCOUNT — the decoder never reads bytes 6-7, it always sets ANCOUNT = 0. -/
theorem header_roundtrip_counterexample :
    (parseDNSHeader (toBytes c3hdr)).map DNSHeader.ANCOUNT ≠ some c3hdr.ANCOUNT := by
  decide

/-- Claim C3 (amended): for every in-range header with OPCODE = 0,
deserializing its serialization preserves ID, OPCODE, RD, QDCOUNT, NSCOUNT and
ARCOUNT, forces QR = 1, and sets ANCOUNT (not read from the input) and
AA/TC/RA/Z/RCODE to 0. -/
theorem header_roundtrip_amended (h : DNSHeader) (hOP : h.OPCODE = 0)
    (hID : h.ID < 65536) (hQR : h.QR < 2) (hAA : h.AA < 2) (hTC : h.TC < 2)
    (hRD : h.RD < 2) (hRA : h.RA < 2) (hZ : h.Z < 8) (hRC : h.RCODE < 16)
    (hQD : h.QDCOUNT < 65536) (hAN : h.ANCOUNT < 65536) (hNS : h.NSCOUNT < 65536)
    (hAR : h.ARCOUNT < 65536) :
    parseDNSHeader (toBytes h) =
      some { h with QR := 1, AA := 0, TC := 0, RA := 0, Z := 0, RCODE := 0, ANCOUNT := 0 } := by
  have hOP16 : h.OPCODE < 16 := by omega
  have hfl := flagsWord_eq_sum h hQR hOP16 hAA hTC hRD hRA hZ hRC
  have hflb : flagsWord h < 65536 := by rw [hfl]; omega
  have hflrest : u16 (flagsWord h) / 256 * 256 + flagsWord h % 256 = flagsWord h := by
    unfold u16
    omega
  have hid : get16 (toBytes h) 0 = h.ID := by
    rw [get16_toBytes_0]
    unfold u16
    omega
  have hflags : get16 (toBytes h) 2 = flagsWord h := by rw [get16_toBytes_2, hflrest]
  have hqd : get16 (toBytes h) 4 = h.QDCOUNT := by
    rw [get16_toBytes_4]
    unfold u16
    omega
  have hns : get16 (toBytes h) 8 = h.NSCOUNT := by
    rw [get16_toBytes_8]
    unfold u16
    omega
  have har : get16 (toBytes h) 10 = h.ARCOUNT := by
    rw [get16_toBytes_10]
    unfold u16
    omega
  have hopx : get16 (toBytes h) 2 >>> 11 &&& 15 = h.OPCODE := by
    rw [hflags, hfl]
    exact extract_opcode _ _ _ _ _ _ _ _ hQR hOP16 hAA hTC hRD hRA hZ hRC
  have hrdx : get16 (toBytes h) 2 >>> 8 &&& 1 = h.RD := by
    rw [hflags, hfl]
    exact extract_rd _ _ _ _ _ _ _ _ hQR hOP16 hAA hTC hRD hRA hZ hRC
  unfold parseDNSHeader
  rw [if_neg (by rw [show (toBytes h).length = 12 from rfl]; omega)]
  rw [hid, hqd, hns, har, hopx, hrdx, hOP]
  simp

/-- Claim C3 witness: a concrete in-range header with OPCODE = 0. -/
theorem header_roundtrip_amended_witness :
    let h : DNSHeader := ⟨43981, 0, 0, 1, 0, 1, 0, 0, 2, 9, 8, 7, 6⟩
    h.OPCODE = 0 ∧ h.ID < 65536 ∧ h.QR < 2 ∧ h.AA < 2 ∧ h.TC < 2 ∧ h.RD < 2 ∧
    h.RA < 2 ∧ h.Z < 8 ∧ h.RCODE < 16 ∧ h.QDCOUNT < 65536 ∧ h.ANCOUNT < 65536 ∧
    h.NSCOUNT < 65536 ∧ h.ARCOUNT < 65536 ∧
    parseDNSHeader (toBytes h) =
      some { h with QR := 1, AA := 0, TC := 0, RA := 0, Z := 0, RCODE := 0, ANCOUNT := 0 } :=
  ⟨by decide, by decide, by decide, by decide, by decide, by decide, by decide,
   by decide, by decide, by decide, by decide, by decide, by decide,
   header_roundtrip_amended _ (by decide) (by decide) (by decide) (by decide)
     (by decide) (by decide) (by decide) (by decide) (by decide) (by decide)
     (by decide) (by decide) (by decide)⟩

/-! ### Name codec -/

/-- `strings.Split(s, ".")` on byte strings: split at every `'.'` (byte 46);
the empty string yields one empty label, `"a."` yields `["a", ""]`. -/
def splitOnDot : List Nat → List (List Nat)
  | [] => [[]]
  | b :: rest =>
    match splitOnDot rest with
    | [] => [[]]
    | l :: ls => if b = 46 then [] :: l :: ls else (b :: l) :: ls

/-- `strings.Join(labels, ".")` on byte strings. -/
def joinDots : List (List Nat) → List Nat
  | [] => []
  | [l] => l
  | l :: ls => l ++ 46 :: joinDots ls

/-- One label in wire form: length byte (Go `byte(len(label))`, wraps at 256)
followed by the raw label bytes. -/
def encLabel (l : List Nat) : List Nat := l.length % 256 :: l

/-- `encodeDomainName` of `utils.go`: split on dots, emit each label
length-prefixed, terminate with a zero byte. -/
def encodeDomainName (domain : List Nat) : List Nat :=
  ((splitOnDot domain).map encLabel).flatten ++ [0]

/-- The label-list accumulator loop of `parseDomainName` in `utils.go`.
Returns the collected labels plus the offset after the name.  `none` models a
panic (out-of-range read) or a non-terminating pointer chase (fuel runs out);
the Go code has no cycle guard, so its recursion is reproduced verbatim, one
fuel unit per loop iteration or pointer dereference. -/
def parseDomainNameAux (fuel : Nat) (buf : List Nat) (offset : Nat) :
    Option (List (List Nat) × Nat) :=
  match fuel with
  | 0 => none
  | fuel + 1 =>
    match buf.get? offset with
    | none => none
    | some length =>
      if length &&& 192 = 192 then
        if offset + 2 ≤ buf.length then
          match parseDomainNameAux fuel buf ((buf.getD offset 0 * 256 + buf.getD (offset + 1) 0) &&& 16383) with
          | none => none
          | some (plabels, _) => some ([joinDots plabels], offset + 2)
        else none
      else if length = 0 then
        some ([], offset + 1)
      else
        if offset + 1 + length ≤ buf.length then
          match parseDomainNameAux fuel buf (offset + 1 + length) with
          | none => none
          | some (labels, rest) => some ((buf.drop (offset + 1)).take length :: labels, rest)
        else none

/-- `parseDomainName` of `utils.go`: the joined dotted name and the offset
just past it. -/
def parseDomainName (fuel : Nat) (buf : List Nat) (offset : Nat) :
    Option (List Nat × Nat) :=
  (parseDomainNameAux fuel buf offset).map (fun p => (joinDots p.1, p.2))

/-- Claim C9 counterexample: `encodeDomainName ""` is not the single
terminator byte — `strings.Split("", ".")` yields one empty label, so the
encoder emits its zero length byte and then the terminator. -/
theorem encode_empty_counterexample : encodeDomainName [] ≠ [0] := by decide

/-- Claim C9 (amended): `encodeDomainName` applied to the empty string
produces exactly two bytes: a zero length byte for the empty label followed
by the zero terminator. -/
theorem encode_empty_amended : encodeDomainName [] = [0, 0] := by decide

/-- Claim C2: on the two-byte message whose first byte is a compression
pointer to offset 0 (a self-loop), the decoder never returns a value, for any
amount of fuel: the Go recursion has no cycle guard and never terminates. -/
theorem decode_self_pointer_diverges :
    ∀ fuel, parseDomainName fuel [192, 0] 0 = none := by
  intro fuel
  suffices h : parseDomainNameAux fuel [192, 0] 0 = none by
    unfold parseDomainName
    rw [h]
    rfl
  induction fuel with
  | zero => rfl
  | succ f ih =>
    rw [show parseDomainNameAux (f + 1) [192, 0] 0 =
          (match parseDomainNameAux f [192, 0] 0 with
           | none => none
           | some (plabels, _) => some ([joinDots plabels], 0 + 2)) from rfl]
    rw [ih]

/-- `splitOnDot` never returns the empty list of labels. -/
theorem splitOnDot_ne_nil (s : List Nat) : splitOnDot s ≠ [] := by
  cases s with
  | nil => simp [splitOnDot]
  | cons b rest =>
    unfold splitOnDot
    cases h : splitOnDot rest with
    | nil => simp
    | cons l ls =>
      by_cases hb : b = 46 <;> simp [hb]

/-- Joining the split labels with dots restores the original string. -/
theorem joinDots_splitOnDot (s : List Nat) : joinDots (splitOnDot s) = s := by
  induction s with
  | nil => rfl
  | cons b rest ih =>
    unfold splitOnDot
    cases h : splitOnDot rest with
    | nil => exact absurd h (splitOnDot_ne_nil rest)
    | cons l ls =>
      rw [h] at ih
      by_cases hb : b = 46
      · subst hb
        simp only [if_pos rfl]
        cases ls with
        | nil => simp [joinDots] at ih ⊢; exact ih
        | cons l' ls' => simp [joinDots] at ih ⊢; exact ih
      · simp only [if_neg hb]
        cases ls with
        | nil => simp [joinDots] at ih ⊢; exact ih
        | cons l' ls' => simp [joinDots] at ih ⊢; rw [← ih]

/-- Parsing a wire-encoded label sequence at the offset where it starts
collects exactly those labels and stops just past the zero terminator. -/
theorem parseAux_encoded (ls : List (List Nat)) :
    ∀ (buf rest : List Nat) (o fuel : Nat),
    (∀ l ∈ ls, 0 < l.length ∧ l.length ≤ 63) →
    buf.drop o = (ls.map encLabel).flatten ++ 0 :: rest →
    ls.length < fuel →
    parseDomainNameAux fuel buf o = some (ls, o + (ls.map encLabel).flatten.length + 1) := by
  induction ls with
  | nil =>
    intro buf rest o fuel _ hdrop hfuel
    match fuel, hfuel with
    | f + 1, _ =>
      have hget : buf.get? o = some 0 := by
        have h0 : (buf.drop o).get? 0 = some 0 := by rw [hdrop]; rfl
        rw [List.get?_drop] at h0
        simpa using h0
      unfold parseDomainNameAux
      rw [hget]
      norm_num
  | cons l ls ih =>
    intro buf rest o fuel hls hdrop hfuel
    match fuel, hfuel with
    | f + 1, hfuel =>
      have hl := hls l (by simp)
      have hlen256 : l.length % 256 = l.length := Nat.mod_eq_of_lt (by omega)
      have hget : buf.get? o = some l.length := by
        have h0 : (buf.drop o).get? 0 = some (l.length % 256) := by
          rw [hdrop]
          rfl
        rw [List.get?_drop, hlen256] at h0
        simpa using h0
      have hdroplen : (buf.drop o).length = 1 + l.length + ((ls.map encLabel).flatten.length + 1 + rest.length) := by
        rw [hdrop]
        simp [encLabel]
        omega
      have hbuflen : o ≤ buf.length := by
        by_cases hc : o ≤ buf.length
        · exact hc
        · rw [List.drop_eq_nil_of_le (by omega)] at hdrop
          simp [encLabel] at hdrop
      have hlen : o + 1 + l.length ≤ buf.length := by
        rw [List.length_drop] at hdroplen
        omega
      have hdrop1 : buf.drop (o + 1) = l ++ ((ls.map encLabel).flatten ++ 0 :: rest) := by
        have : (buf.drop o).drop 1 = buf.drop (o + 1) := by
          rw [List.drop_drop]
        rw [← this, hdrop]
        simp [encLabel]
      have htake : (buf.drop (o + 1)).take l.length = l := by
        rw [hdrop1]
        exact List.take_left' rfl
      have hdrop2 : buf.drop (o + 1 + l.length) = (ls.map encLabel).flatten ++ 0 :: rest := by
        have : (buf.drop (o + 1)).drop l.length = buf.drop (o + 1 + l.length) := by
          rw [List.drop_drop]
        rw [← this, hdrop1]
        rw [List.drop_left' rfl]
      have hrec := ih buf rest (o + 1 + l.length) f
        (fun x hx => hls x (by simp [hx])) hdrop2 (by simpa using Nat.lt_of_succ_lt_succ hfuel)
      have hnotptr : ¬ l.length &&& 192 = 192 := by
        have h63 : ∀ n < 64, n &&& 192 = 0 := by decide
        rw [h63 l.length (by omega)]
        omega
      have hnotzero : ¬ l.length = 0 := by omega
      unfold parseDomainNameAux
      rw [hget]
      simp only [hnotptr, if_false, hnotzero, if_true, hlen, if_pos, hrec, htake]
      simp [encLabel]
      omega

/-- Claim C4 counterexample: the empty name.  Its only label is empty and ≤ 63
bytes, it encodes to the two bytes `[0, 0]` (empty label length, terminator),
but decoding stops at the first zero byte and returns next-offset 1, not the
encoded length 2. -/
theorem name_roundtrip_counterexample :
    parseDomainName 5 (encodeDomainName []) 0 ≠
      some (([] : List Nat), (encodeDomainName []).length) := by
  decide

/-- Claim C4 (amended): for every dotted domain name all of whose labels are
nonempty and at most 63 bytes long, decoding the encoding starting at offset 0
returns exactly the original dotted string together with a next-offset equal
to the length of the encoded byte sequence (for any fuel beyond the number of
labels). -/
theorem name_roundtrip_amended (name : List Nat)
    (hlabels : ∀ l ∈ splitOnDot name, 0 < l.length ∧ l.length ≤ 63)
    (fuel : Nat) (hfuel : (splitOnDot name).length < fuel) :
    parseDomainName fuel (encodeDomainName name) 0 =
      some (name, (encodeDomainName name).length) := by
  have hdrop : (encodeDomainName name).drop 0 =
      ((splitOnDot name).map encLabel).flatten ++ 0 :: [] := by
    simp [encodeDomainName]
  have haux := parseAux_encoded (splitOnDot name) (encodeDomainName name) [] 0 fuel
    hlabels hdrop hfuel
  unfold parseDomainName
  rw [haux]
  simp [joinDots_splitOnDot, encodeDomainName]

/-- Claim C4 witness: the name "ab.c". -/
theorem name_roundtrip_amended_witness :
    (∀ l ∈ splitOnDot [97, 98, 46, 99], 0 < l.length ∧ l.length ≤ 63) ∧
    (splitOnDot [97, 98, 46, 99]).length < 10 ∧
    parseDomainName 10 (encodeDomainName [97, 98, 46, 99]) 0 =
      some ([97, 98, 46, 99], (encodeDomainName [97, 98, 46, 99]).length) :=
  ⟨by decide, by decide, name_roundtrip_amended _ (by decide) 10 (by decide)⟩

/-! ### Questions and the forwarding path -/

/-- The `DNSQuestion` struct (`Type` is a reserved word in Lean, kept as `Typ`). -/
structure DNSQuestion where
  Name : List Nat
  Typ : List Nat
  Class : List Nat
deriving DecidableEq, Repr

/-- `parseQuestions` of `utils.go`: `count` repetitions of name + 2 bytes type
+ 2 bytes class.  `none` models a panic on an out-of-range slice or a failed
(out-of-fuel / panicking) name parse. -/
def parseQuestions (fuel : Nat) (buf : List Nat) (offset count : Nat) :
    Option (List DNSQuestion × Nat) :=
  match count with
  | 0 => some ([], offset)
  | c + 1 =>
    match parseDomainName fuel buf offset with
    | none => none
    | some (qname, newOffset) =>
      if newOffset + 4 ≤ buf.length then
        match parseQuestions fuel buf (newOffset + 4) c with
        | none => none
        | some (rest, finalOffset) =>
          some ({ Name := qname, Typ := (buf.drop newOffset).take 2,
                  Class := (buf.drop (newOffset + 2)).take 2 } :: rest, finalOffset)
      else none

/-- `forwardDNSQuery` of `utils.go`: writes `query` upstream and reads the
reply into a fresh 512-byte buffer, returning the whole buffer — the reply
(capped at 512 bytes by the read) followed by the buffer's remaining zeros.
`none` models any dial/write/read error. -/
def forwardDNSQuery (upstream : List Nat → Option (List Nat)) (query : List Nat) :
    Option (List Nat) :=
  match upstream query with
  | none => none
  | some reply => some (reply.take 512 ++ List.replicate (512 - reply.length) 0)

/-- The per-question outbound query built in the multi-question branch of
`handleQuery`: the original 12 header bytes, the re-encoded question, and the
bytes of the original query past the question section (if any). -/
def subQueryFor (query : List Nat) (offset : Nat) (q : DNSQuestion) : List Nat :=
  query.take 12 ++ encodeDomainName q.Name ++ q.Typ ++ q.Class ++
    (if offset < query.length then query.drop offset else [])

/-- `handleQuery` of `utils.go`, as the datagram written back to the client
(`none` when nothing is sent: a malformed query or a failed single-question
forward).  With more than one question it forwards one sub-query per question
(skipping failed forwards), concatenates the replies minus their first 12
bytes, and prepends the re-serialized header with ANCOUNT = number of replies
and QDCOUNT = number of questions; otherwise it forwards `query[:offset]`
verbatim and returns the upstream reply buffer as is. -/
def handleQuery (upstream : List Nat → Option (List Nat)) (query : List Nat)
    (fuel : Nat) : Option (List Nat) :=
  if query.length < 12 then none else
  match parseDNSHeader (query.take 12) with
  | none => none
  | some header =>
    match parseQuestions fuel query 12 header.QDCOUNT with
    | none => none
    | some (questions, offset) =>
      if 1 < questions.length then
        let responses := questions.filterMap
          (fun q => forwardDNSQuery upstream (subQueryFor query offset q))
        let combinedHeader :=
          { header with ANCOUNT := responses.length % 65536, QDCOUNT := questions.length % 65536 }
        some (toBytes combinedHeader ++ (responses.map (fun r => r.drop 12)).flatten)
      else
        forwardDNSQuery upstream (query.take offset)

/-- `getD` at an index below the cut is unchanged by `take`. -/
theorem getD_take_lt (l : List Nat) (i n : Nat) (h : i < n) :
    (l.take n).getD i 0 = l.getD i 0 := by
  simp only [List.getD_eq_getElem?_getD, List.getElem?_take_of_lt h]

/-- Claim C10: on every successful upstream exchange whose reply fits the
512-byte read buffer, `forwardDNSQuery` returns a slice of length exactly 512
regardless of how many bytes the upstream sent: the reply is a prefix and the
rest of the buffer is zero bytes. -/
theorem forward_returns_512 (upstream : List Nat → Option (List Nat))
    (query reply : List Nat) (hup : upstream query = some reply)
    (hlen : reply.length ≤ 512) :
    forwardDNSQuery upstream query = some (reply ++ List.replicate (512 - reply.length) 0) ∧
    (reply ++ List.replicate (512 - reply.length) 0).length = 512 := by
  constructor
  · unfold forwardDNSQuery
    simp only [hup]
    rw [List.take_of_length_le hlen]
  · simp
    omega

/-- Claim C10 witness: a three-byte upstream reply. -/
theorem forward_returns_512_witness :
    (fun _ : List Nat => some [1, 2, 3]) [] = some [1, 2, 3] ∧
    ([1, 2, 3] : List Nat).length ≤ 512 ∧
    (forwardDNSQuery (fun _ => some [1, 2, 3]) [] =
       some ([1, 2, 3] ++ List.replicate (512 - ([1, 2, 3] : List Nat).length) 0) ∧
     (([1, 2, 3] : List Nat) ++ List.replicate (512 - ([1, 2, 3] : List Nat).length) 0).length = 512) :=
  ⟨rfl, by decide, forward_returns_512 _ [] [1, 2, 3] rfl (by decide)⟩

/-- A single-question query carrying one trailing byte (0xAB) after the
question section: header ID 0x04D2, RD set, QDCOUNT 1, question "a"/A/IN. -/
def c1query : List Nat := [4, 210, 1, 0, 0, 1, 0, 0, 0, 0, 0, 0, 1, 97, 0, 0, 1, 0, 1, 171]

/-- Claim C1 counterexample: with an upstream that echoes back exactly the
datagram it receives, the claim forces `handleQuery` to answer with the query
itself (everything forwarded unmodified, reply returned byte-for-byte).  The
code does not: it drops the trailing byte when forwarding (`query[:offset]`)
and answers with the 512-byte read buffer, not the reply at its own length. -/
theorem single_question_counterexample :
    handleQuery (fun q => some q) c1query 50 ≠ some c1query := by
  decide

/-- Claim C1 (amended): for every query whose header declares exactly one
question, `handleQuery` forwards exactly `query[:offset]` — the header and
question bytes only, dropping any trailing bytes — and sends the upstream
exchange's buffer back unchanged: the reply padded with zeros to 512 bytes. -/
theorem single_question_forwarding_amended (upstream : List Nat → Option (List Nat))
    (query : List Nat) (fuel : Nat) (hdr : DNSHeader) (q : DNSQuestion) (offset : Nat)
    (hlen : 12 ≤ query.length)
    (hhdr : parseDNSHeader (query.take 12) = some hdr)
    (hqs : parseQuestions fuel query 12 hdr.QDCOUNT = some ([q], offset)) :
    handleQuery upstream query fuel = forwardDNSQuery upstream (query.take offset) := by
  unfold handleQuery
  rw [if_neg (by omega)]
  simp only [hhdr, hqs]
  norm_num

/-- The header that `parseDNSHeader` yields on `c1query`'s first 12 bytes. -/
def c1hdr : DNSHeader := ⟨1234, 1, 0, 0, 0, 1, 0, 0, 0, 1, 0, 0, 0⟩

/-- The single question of `c1query`. -/
def c1q : DNSQuestion := ⟨[97], [0, 1], [0, 1]⟩

/-- Claim C1 witness: the trailing-byte-free prefix of `c1query` with a
constant upstream. -/
theorem single_question_forwarding_amended_witness :
    12 ≤ (c1query.take 19).length ∧
    parseDNSHeader ((c1query.take 19).take 12) = some c1hdr ∧
    parseQuestions 50 (c1query.take 19) 12 c1hdr.QDCOUNT = some ([c1q], 19) ∧
    handleQuery (fun _ => some [7]) (c1query.take 19) 50 =
      forwardDNSQuery (fun _ => some [7]) ((c1query.take 19).take 19) :=
  ⟨by decide, by decide, by decide,
   single_question_forwarding_amended _ _ 50 c1hdr c1q 19 (by decide) (by decide) (by decide)⟩

/-- Claim C5: a query with two questions, both sub-queries answered upstream:
the combined response is the re-serialized header with ANCOUNT = 2,
QDCOUNT = 2 and the original request's ID, followed by each sub-reply's bytes
after its first 12 header bytes, concatenated in order. -/
theorem multi_question_combine (upstream : List Nat → Option (List Nat))
    (query : List Nat) (fuel : Nat) (hdr : DNSHeader) (q1 q2 : DNSQuestion)
    (offset : Nat) (r1 r2 : List Nat)
    (hlen : 12 ≤ query.length)
    (hhdr : parseDNSHeader (query.take 12) = some hdr)
    (hqs : parseQuestions fuel query 12 hdr.QDCOUNT = some ([q1, q2], offset))
    (hf1 : forwardDNSQuery upstream (subQueryFor query offset q1) = some r1)
    (hf2 : forwardDNSQuery upstream (subQueryFor query offset q2) = some r2) :
    handleQuery upstream query fuel =
      some (toBytes { hdr with ANCOUNT := 2, QDCOUNT := 2 } ++
            (r1.drop 12 ++ (r2.drop 12 ++ []))) ∧
    hdr.ID = get16 query 0 := by
  constructor
  · unfold handleQuery
    rw [if_neg (by omega)]
    simp only [hhdr, hqs]
    simp only [List.length_cons, List.length_nil, List.filterMap_cons, hf1, hf2,
      List.filterMap_nil, List.map_cons, List.map_nil, List.flatten]
    norm_num
  · have h12 : ¬ (query.take 12).length < 12 := by
      simp [List.length_take]
      omega
    unfold parseDNSHeader at hhdr
    rw [if_neg h12] at hhdr
    injection hhdr with hh
    rw [← hh]
    unfold get16
    rw [getD_take_lt query 0 12 (by omega), getD_take_lt query 1 12 (by omega)]

/-- A two-question query: ID 0x04D2, RD set, QDCOUNT 2, questions "a"/A/IN and
"b"/A/IN, no trailing bytes. -/
def q5query : List Nat :=
  [4, 210, 1, 0, 0, 2, 0, 0, 0, 0, 0, 0, 1, 97, 0, 0, 1, 0, 1, 1, 98, 0, 0, 1, 0, 1]

/-- The header that `parseDNSHeader` yields on `q5query`'s first 12 bytes. -/
def q5hdr : DNSHeader := ⟨1234, 1, 0, 0, 0, 1, 0, 0, 0, 2, 0, 0, 0⟩

/-- First question of `q5query`. -/
def q5a : DNSQuestion := ⟨[97], [0, 1], [0, 1]⟩

/-- Second question of `q5query`. -/
def q5b : DNSQuestion := ⟨[98], [0, 1], [0, 1]⟩

/-- The 512-byte buffer a constant upstream reply `[5]` produces. -/
def q5resp : List Nat := 5 :: List.replicate 511 0

/-- Claim C5 witness: the concrete two-question query against a constant
upstream. -/
theorem multi_question_combine_witness :
    12 ≤ q5query.length ∧
    parseDNSHeader (q5query.take 12) = some q5hdr ∧
    parseQuestions 50 q5query 12 q5hdr.QDCOUNT = some ([q5a, q5b], 26) ∧
    forwardDNSQuery (fun _ => some [5]) (subQueryFor q5query 26 q5a) = some q5resp ∧
    forwardDNSQuery (fun _ => some [5]) (subQueryFor q5query 26 q5b) = some q5resp ∧
    (handleQuery (fun _ => some [5]) q5query 50 =
      some (toBytes { q5hdr with ANCOUNT := 2, QDCOUNT := 2 } ++
            (q5resp.drop 12 ++ (q5resp.drop 12 ++ []))) ∧
     q5hdr.ID = get16 q5query 0) :=
  ⟨by decide, by decide, by decide, by decide, by decide,
   multi_question_combine _ q5query 50 q5hdr q5a q5b 26 q5resp q5resp
     (by decide) (by decide) (by decide) (by decide) (by decide)⟩
